import Mathlib

/-!
Shallow embedding of `bslmf_rvalue.h` (component `bslmf::Rvalue` /
`bslmf::RvalueUtil` together with the usage-example `vector<TYPE>` from the
component documentation).

Objects are identified by their addresses, modelled as natural numbers with
`0` playing the role of the null pointer. The component has two compile-time
branches:

* the C++11 branch, where `Rvalue<TYPE>` is the alias template `TYPE&&`, so a
  movable handle simply denotes the address of the referenced object;
* the C++03 branch, where `Rvalue<TYPE>` is a class holding a pointer
  `d_pointer` to the referenced object, produced by the private constructor
  guarded by `BSLS_ASSERT(0 != pointer)`.

An assertion failure (`BSLS_ASSERT` or the C `assert` in the usage example) is
modelled by returning `none`.
-/

set_option autoImplicit false

namespace BslmfRvalue

/-- Address of a C++ object; `0` is the null pointer. -/
abbrev Addr := Nat

namespace Cpp11

/-- C++11 branch: `template <class TYPE> using Rvalue = TYPE&&;`.
A reference (of any value category) is identified with the address of the
object it denotes, so `Rvalue` is just `Addr`. -/
abbrev Rvalue := Addr

namespace RvalueUtil

/-- C++11 branch `RvalueUtil::access`: `return rvalue;` — yields a reference
to the very object the argument reference denotes. -/
def access (rvalue : Rvalue) : Addr := rvalue

/-- C++11 branch `RvalueUtil::move`:
`return static_cast<typename RemoveReference<TYPE>::Type&&>(lvalue);` — the
cast changes only the value category, never the denoted object. -/
def move (lvalue : Addr) : Rvalue := lvalue

end RvalueUtil

end Cpp11

namespace Cpp03

/-- C++03 branch: `class Rvalue` holding the pointer member `d_pointer`. -/
structure Rvalue where
  d_pointer : Addr
  deriving DecidableEq

namespace Rvalue

/-- Private constructor `Rvalue(TYPE *pointer) : d_pointer(pointer)` with
`BSLS_ASSERT(0 != pointer)`; a firing assertion is modelled as `none`. -/
def ctor (pointer : Addr) : Option Rvalue :=
  if pointer ≠ 0 then some ⟨pointer⟩ else none

/-- Conversion operator `operator TYPE&() const { return *d_pointer; }` —
the denoted object is the one at `d_pointer`. -/
def toRef (r : Rvalue) : Addr := r.d_pointer

end Rvalue

namespace RvalueUtil

/-- C++03 branch `RvalueUtil::access(Rvalue<TYPE> rvalue)`:
`return rvalue;` — returns through the conversion operator `operator TYPE&`,
hence denotes the object at `d_pointer`. -/
def access (rvalue : Rvalue) : Addr := rvalue.toRef

/-- C++03 branch `RvalueUtil::move(TYPE& lvalue)`:
`return Rvalue<TYPE>(&lvalue);` — a factory calling the private constructor
on the address of the lvalue. -/
def move (lvalue : Addr) : Option Rvalue := Rvalue.ctor lvalue

/-- C++03 branch forwarding overload `RvalueUtil::move(Rvalue<TYPE> rvalue)`:
`return rvalue;`. (The source spells both overloads `move`; Lean does not
overload, so this one carries the argument type in its name.) -/
def moveRvalue (rvalue : Rvalue) : Rvalue := rvalue

end RvalueUtil

end Cpp03

namespace RvalueUtil

/-- `RvalueUtil::moveIfNoexcept(TYPE& lvalue) { return lvalue; }` — defined
once in the source, outside the compile-time branch, at address level: it
returns a `const` lvalue reference to the very same object. -/
def moveIfNoexcept (lvalue : Addr) : Addr := lvalue

/-- Value-level counterpart of `moveIfNoexcept` used where the example vector
constructs `TYPE(RvalueUtil::moveIfNoexcept(*it))`: the `const TYPE&` returned
denotes the argument object itself, so at value level it is the identity. -/
def moveIfNoexceptV {α : Type} (x : α) : α := x

end RvalueUtil

/-! ### State-threading embedding of `move` for the frame property

To express that evaluating `RvalueUtil::move` does not modify any object, the
two `move` bodies are also embedded with the program memory (a map from
addresses to values) threaded explicitly. Neither body contains a store, so
the memory is returned unchanged. -/

namespace Cpp03

/-- C++03 `RvalueUtil::move(TYPE& lvalue)` with the memory `mem` threaded:
the body `return Rvalue<TYPE>(&lvalue);` performs no store. -/
def RvalueUtil.moveSt {α : Type} (mem : Addr → α) (lvalue : Addr) :
    (Addr → α) × Option Rvalue :=
  (mem, Rvalue.ctor lvalue)

end Cpp03

namespace Cpp11

/-- C++11 `RvalueUtil::move` with the memory `mem` threaded: the body is a
single `static_cast`, which performs no store. -/
def RvalueUtil.moveSt {α : Type} (mem : Addr → α) (lvalue : Addr) :
    (Addr → α) × Rvalue :=
  (mem, RvalueUtil.move lvalue)

end Cpp11

/-! ### The usage-example `vector<TYPE>`

The example vector stores `d_begin`, `d_end`, `d_endBuffer`. It is embedded
as the buffer address (`d_begin`; `0` when null), the list of constructed
elements (the objects in `[d_begin, d_end)`), and the capacity
(`d_endBuffer - d_begin`), so `d_end = buf + elems.length` and
`d_endBuffer = buf + cap`.

`operator new` is modelled by an allocation counter `st : Nat` threaded
through the operations: allocating returns the fresh address `st + 1` and
advances the counter to `st + 1`, so fresh buffers are nonzero and distinct
from every address at most `st`. Element types are abstract: an element copy
constructor has type `α → Nat → α × Nat` (it may allocate) and an element
move constructor has type `α → α × α` (new object, moved-from source). -/

structure Vec (α : Type) where
  /-- `d_begin`: address of the allocated buffer, `0` when null. -/
  buf : Nat
  /-- The constructed elements living in `[d_begin, d_end)`. -/
  elems : List α
  /-- `d_endBuffer - d_begin`. -/
  cap : Nat
  deriving DecidableEq

namespace Vec

variable {α : Type}

/-- `vector<TYPE>::vector()` : all three pointers null. -/
def default_ : Vec α := ⟨0, [], 0⟩

/-- Accessor `size()` = `int(d_end - d_begin)`. -/
def size (v : Vec α) : Nat := v.elems.length

/-- Accessor `capacity()` = `int(d_endBuffer - d_begin)`. -/
def capacity (v : Vec α) : Nat := v.cap

/-- Accessor `begin()` = `d_begin`. -/
def begin_ (v : Vec α) : Nat := v.buf

/-- The member pointer `d_begin`. -/
def dBegin (v : Vec α) : Nat := v.buf

/-- The member pointer `d_end` (`d_begin + size`). -/
def dEnd (v : Vec α) : Nat := v.buf + v.elems.length

/-- The member pointer `d_endBuffer` (`d_begin + capacity`). -/
def dEndBuffer (v : Vec α) : Nat := v.buf + v.cap

/-- Accessor `empty()` = `d_begin == d_end`. -/
def empty (v : Vec α) : Bool := v.elems.length = 0

end Vec

/-- The class invariant of the example vector: `0 ≤ size() ≤ capacity()`
(sizes are naturals, so `0 ≤ size()` is implicit) and the capacity is either
`0` or at least `4`. -/
def Inv {α : Type} (v : Vec α) : Prop :=
  v.elems.length ≤ v.cap ∧ (v.cap = 0 ∨ 4 ≤ v.cap)

instance {α : Type} (v : Vec α) : Decidable (Inv v) := by
  unfold Inv; infer_instance

/-- Copy-construct each element of a list in order, threading the allocation
counter (the loop `for (it ...) { new (d_end) TYPE(...); ++d_end; }`). -/
def copyList {α : Type} (copyC : α → Nat → α × Nat) :
    List α → Nat → List α × Nat
  | [], st => ([], st)
  | x :: xs, st =>
    let q := copyC x st
    let r := copyList copyC xs q.2
    (q.1 :: r.1, r.2)

/-- `vector<TYPE>::reserve(int newCapacity)`: when `capacity() < newCapacity`
a fresh buffer of capacity `newCapacity` is allocated and every element is
reconstructed in it via `new (tmp.d_end) TYPE(RvalueUtil::moveIfNoexcept(*it))`;
`this->swap(tmp)` then installs the new representation (the old buffer dies
with `tmp`). Otherwise nothing happens. -/
def reserve {α : Type} (copyC : α → Nat → α × Nat) (v : Vec α) (n : Int)
    (st : Nat) : Vec α × Nat :=
  if (v.cap : Int) < n then
    let q := copyList (fun x s => copyC (RvalueUtil.moveIfNoexceptV x) s)
      v.elems (st + 1)
    (⟨st + 1, q.1, n.toNat⟩, q.2)
  else (v, st)

/-- The growth argument `this->size()? int(1.5 * this->size()): 4` of the
`reserve` call inside `push_back`. `1.5 * size` is exact in double precision
for every representable `int` size, so `int(1.5 * size) = size + size / 2`. -/
def growSize (len : Nat) : Int :=
  if len ≠ 0 then ((len + len / 2 : Nat) : Int) else 4

/-- `vector<TYPE>::push_back(const TYPE& value)`: grow if full, then
`assert(d_end != d_endBuffer)` (modelled as `none` on failure) and
copy-construct `value` at `d_end`. -/
def pushBackCopy {α : Type} (copyC : α → Nat → α × Nat) (v : Vec α) (x : α)
    (st : Nat) : Option (Vec α × Nat) :=
  let p := if v.elems.length = v.cap
    then reserve copyC v (growSize v.elems.length) st
    else (v, st)
  if p.1.elems.length = p.1.cap then none
  else
    let q := copyC x p.2
    some (⟨p.1.buf, p.1.elems ++ [q.1], p.1.cap⟩, q.2)

/-- `vector<TYPE>::push_back(bslmf::Rvalue<TYPE> value)`: grow if full, then
`assert(d_end != d_endBuffer)` and construct
`new (d_end) TYPE(RvalueUtil::move(value))` — the forwarding overload of
`move` returns its argument unchanged, so `TYPE`'s move constructor runs on
the object `value` references. The result also carries the moved-from source
object. -/
def pushBackMove {α : Type} (copyC : α → Nat → α × Nat) (moveC : α → α × α)
    (v : Vec α) (x : α) (st : Nat) : Option (Vec α × α × Nat) :=
  let p := if v.elems.length = v.cap
    then reserve copyC v (growSize v.elems.length) st
    else (v, st)
  if p.1.elems.length = p.1.cap then none
  else
    let q := moveC x
    some (⟨p.1.buf, p.1.elems ++ [q.1], p.1.cap⟩, q.2, p.2)

/-- `vector<TYPE>::vector(bslmf::Rvalue<vector> other)`: the initializer list
copies `other`'s `d_begin`, `d_end`, `d_endBuffer` through
`RvalueUtil::access(other)`, then the body sets all three pointers of the
referenced source to `0`. Returns (new object, moved-from source). -/
def vecMoveCtor {α : Type} (other : Vec α) : Vec α × Vec α :=
  (⟨other.buf, other.elems, other.cap⟩, ⟨0, [], 0⟩)

/-- `vector<TYPE>::vector(const vector& other)`: pointers start null; if
`other` is nonempty, `reserve(4 < other.size()? other.size(): 4)` allocates,
then each element of `other` is copy-constructed in place. -/
def vecCopyCtor {α : Type} (copyC : α → Nat → α × Nat) (other : Vec α)
    (st : Nat) : Vec α × Nat :=
  if other.elems.isEmpty then (⟨0, [], 0⟩, st)
  else
    let p := reserve copyC ⟨0, [], 0⟩
      ((if 4 < other.elems.length then other.elems.length else 4 : Nat) : Int)
      st
    let q := copyList copyC other.elems p.2
    (⟨p.1.buf, q.1, p.1.cap⟩, q.2)

/-- `vector<TYPE>::swap(vector& other)`: memberwise pointer swap, i.e. the
two representations are exchanged. -/
def vecSwap {α : Type} (v other : Vec α) : Vec α × Vec α := (other, v)

/-- `vector<TYPE>::operator=(vector other)`: `other` arrives by value
(already copy- or move-constructed); `this` swaps with it and the old
representation dies with `other`. The new value of `this` is `other`. -/
def vecAssign {α : Type} (_this : Vec α) (other : Vec α) : Vec α := other

/-- Copy constructor of `int` elements: no allocation, value copied. -/
def intCopy (x : Int) (st : Nat) : Int × Nat := (x, st)

/-- Move of an `int` element: the value is copied, the source unchanged. -/
def intMove (x : Int) : Int × Int := (x, x)

/-- Copy constructor of the inner `vector<int>`, as an element type of
`vector<vector<int> >` (the usage example's `vvector`). -/
def ivecCopy (x : Vec Int) (st : Nat) : Vec Int × Nat :=
  vecCopyCtor intCopy x st

/-- Variant of `reserve` written from the specification's words: every element
is reconstructed by a plain copy of the old element (no `moveIfNoexcept`
call). Comparing with `reserve` shows the production code always copies. -/
def reserveAllCopies {α : Type} (copyC : α → Nat → α × Nat) (v : Vec α)
    (n : Int) (st : Nat) : Vec α × Nat :=
  if (v.cap : Int) < n then
    let q := copyList copyC v.elems (st + 1)
    (⟨st + 1, q.1, n.toNat⟩, q.2)
  else (v, st)

/-- The `Rvalue<TYPE>` objects obtainable through the public interface of the
C++03 branch: `RvalueUtil::move` applied to an existing lvalue (whose address
is nonzero), and the forwarding overload applied to an already obtained
handle. -/
inductive Produced : Cpp03.Rvalue → Prop
  | move (a : Addr) (h : a ≠ 0) (r : Cpp03.Rvalue)
      (heq : Cpp03.RvalueUtil.move a = some r) : Produced r
  | fwd (r : Cpp03.Rvalue) (h : Produced r) :
      Produced (Cpp03.RvalueUtil.moveRvalue r)

/-- Vector states reachable from the default constructor through the example
vector's operations: both `push_back` overloads (with arbitrary elements and
allocator states), `reserve`, copy construction, move construction (either
side), assignment and `swap`. The `reserve` transition is restricted to
arguments that are no-ops (at most the current capacity) or at least `4`. -/
inductive Reachable {α : Type} (copyC : α → Nat → α × Nat)
    (moveC : α → α × α) : Vec α → Prop
  | dflt : Reachable copyC moveC ⟨0, [], 0⟩
  | push_copy (v : Vec α) (x : α) (st : Nat) (v' : Vec α) (st' : Nat)
      (h : Reachable copyC moveC v)
      (heq : pushBackCopy copyC v x st = some (v', st')) :
      Reachable copyC moveC v'
  | push_move (v : Vec α) (x : α) (st : Nat) (v' : Vec α) (e' : α)
      (st' : Nat) (h : Reachable copyC moveC v)
      (heq : pushBackMove copyC moveC v x st = some (v', e', st')) :
      Reachable copyC moveC v'
  | reserve_call (v : Vec α) (n : Int) (st : Nat)
      (h : Reachable copyC moveC v) (hn : n ≤ (v.cap : Int) ∨ 4 ≤ n) :
      Reachable copyC moveC (reserve copyC v n st).1
  | copy_ctor (v : Vec α) (st : Nat) (h : Reachable copyC moveC v) :
      Reachable copyC moveC (vecCopyCtor copyC v st).1
  | move_ctor_new (v : Vec α) (h : Reachable copyC moveC v) :
      Reachable copyC moveC (vecMoveCtor v).1
  | move_ctor_src (v : Vec α) (h : Reachable copyC moveC v) :
      Reachable copyC moveC (vecMoveCtor v).2
  | assign_op (v w : Vec α) (h : Reachable copyC moveC v)
      (hw : Reachable copyC moveC w) :
      Reachable copyC moveC (vecAssign v w)
  | swap_fst (v w : Vec α) (h : Reachable copyC moveC v)
      (hw : Reachable copyC moveC w) :
      Reachable copyC moveC (vecSwap v w).1
  | swap_snd (v w : Vec α) (h : Reachable copyC moveC v)
      (hw : Reachable copyC moveC w) :
      Reachable copyC moveC (vecSwap v w).2

/-! ## Claims about the two implementation branches -/

/-- C1. The two compile-time implementation branches are observably
equivalent: for every object (at nonzero address `a`), the C++03
pointer-wrapper `move` succeeds and its result denotes `a`, exactly as the
C++11 `move` does; `access` applied to the respective handles denotes the
same object in both branches; and `moveIfNoexcept` (shared by both branches)
agrees with itself, denoting `a`. -/
theorem branch_equivalence (a : Addr) (h : a ≠ 0) :
    (Cpp03.RvalueUtil.move a).map Cpp03.Rvalue.toRef = some a ∧
    Cpp11.RvalueUtil.move a = a ∧
    (∀ r, Cpp03.RvalueUtil.move a = some r →
      Cpp03.RvalueUtil.access r =
        Cpp11.RvalueUtil.access (Cpp11.RvalueUtil.move a)) ∧
    RvalueUtil.moveIfNoexcept a = a := by
  refine ⟨?_, rfl, ?_, rfl⟩
  · simp [Cpp03.RvalueUtil.move, Cpp03.Rvalue.ctor, h, Cpp03.Rvalue.toRef]
  · intro r hr
    simp [Cpp03.RvalueUtil.move, Cpp03.Rvalue.ctor, h] at hr
    subst hr
    rfl

/-- Witness for `branch_equivalence` at the concrete address `1`. -/
theorem branch_equivalence_witness :
    (Cpp03.RvalueUtil.move 1).map Cpp03.Rvalue.toRef = some 1 ∧
    Cpp11.RvalueUtil.move 1 = 1 ∧
    (∀ r, Cpp03.RvalueUtil.move 1 = some r →
      Cpp03.RvalueUtil.access r =
        Cpp11.RvalueUtil.access (Cpp11.RvalueUtil.move 1)) ∧
    RvalueUtil.moveIfNoexcept 1 = 1 :=
  branch_equivalence 1 (by decide)

/-- C2. Round trip of `move` and `access`: in both branches
`access(move(x))` denotes `x` itself; and in the C++03 branch the conversion
operator `operator TYPE&` of the produced `Rvalue` denotes the same object as
`access` applied to it. -/
theorem move_access_roundtrip (a : Addr) (h : a ≠ 0) :
    (∃ r, Cpp03.RvalueUtil.move a = some r ∧
      Cpp03.RvalueUtil.access r = a ∧
      Cpp03.Rvalue.toRef r = Cpp03.RvalueUtil.access r) ∧
    Cpp11.RvalueUtil.access (Cpp11.RvalueUtil.move a) = a := by
  refine ⟨⟨⟨a⟩, ?_, rfl, rfl⟩, rfl⟩
  simp [Cpp03.RvalueUtil.move, Cpp03.Rvalue.ctor, h]

/-- Witness for `move_access_roundtrip` at the concrete address `2`. -/
theorem move_access_roundtrip_witness :
    (∃ r, Cpp03.RvalueUtil.move 2 = some r ∧
      Cpp03.RvalueUtil.access r = 2 ∧
      Cpp03.Rvalue.toRef r = Cpp03.RvalueUtil.access r) ∧
    Cpp11.RvalueUtil.access (Cpp11.RvalueUtil.move 2) = 2 :=
  move_access_roundtrip 2 (by decide)

/-- C5. `moveIfNoexcept` always returns a reference denoting its argument
object itself (for every address, hence for every type and object, in both
branches since the definition is shared outside the compile-time switch), the
value-level reading is the identity, and consequently the example vector's
`reserve` is extensionally the variant that plain-copies every element. -/
theorem moveIfNoexcept_always_copies :
    (∀ a : Addr, RvalueUtil.moveIfNoexcept a = a) ∧
    (∀ (α : Type) (x : α), RvalueUtil.moveIfNoexceptV x = x) ∧
    (∀ (α : Type) (copyC : α → Nat → α × Nat) (v : Vec α) (n : Int)
      (st : Nat), reserve copyC v n st = reserveAllCopies copyC v n st) := by
  refine ⟨fun _ => rfl, fun _ _ => rfl, fun α copyC v n st => ?_⟩
  simp [reserve, reserveAllCopies, RvalueUtil.moveIfNoexceptV]

/-- C6. Every `Rvalue<TYPE>` produced through the public interface of the
C++03 branch references an actual object: `RvalueUtil::move` on an existing
lvalue never trips `BSLS_ASSERT(0 != pointer)`, and every handle obtainable
through the public interface has a nonzero `d_pointer`, so the dereference in
`operator TYPE&` is applied to a valid object. -/
theorem produced_rvalue_never_null :
    (∀ a : Addr, a ≠ 0 → (Cpp03.RvalueUtil.move a).isSome) ∧
    (∀ r, Produced r → r.d_pointer ≠ 0) := by
  constructor
  · intro a h
    simp [Cpp03.RvalueUtil.move, Cpp03.Rvalue.ctor, h]
  · intro r hr
    induction hr with
    | move a h r heq =>
      simp [Cpp03.RvalueUtil.move, Cpp03.Rvalue.ctor, h] at heq
      subst heq
      exact h
    | fwd r _ ih => exact ih

/-- Witness for `produced_rvalue_never_null` at the concrete address `5`. -/
theorem produced_rvalue_never_null_witness :
    (Cpp03.RvalueUtil.move 5).isSome ∧
    (⟨5⟩ : Cpp03.Rvalue).d_pointer ≠ 0 :=
  ⟨produced_rvalue_never_null.1 5 (by decide),
   produced_rvalue_never_null.2 ⟨5⟩
     (Produced.move 5 (by decide) ⟨5⟩ (by decide))⟩

/-- C7. `RvalueUtil::move` is state-preserving in both branches: with the
program memory threaded explicitly, evaluating `move` returns the memory
unchanged (in particular the value stored at the argument's address is
untouched); only a handle to the object is produced. -/
theorem move_preserves_state (α : Type) (mem : Addr → α) (a : Addr) :
    (Cpp03.RvalueUtil.moveSt mem a).1 = mem ∧
    (Cpp11.RvalueUtil.moveSt mem a).1 = mem ∧
    (Cpp03.RvalueUtil.moveSt mem a).1 a = mem a ∧
    (Cpp11.RvalueUtil.moveSt mem a).1 a = mem a :=
  ⟨rfl, rfl, rfl, rfl⟩

/-! ## Helper lemmas about the example vector -/

theorem copyList_length {α : Type} (copyC : α → Nat → α × Nat) (l : List α)
    (st : Nat) : ((copyList copyC l st).1).length = l.length := by
  induction l generalizing st with
  | nil => rfl
  | cons x xs ih => simp [copyList, ih]

theorem copyList_mono {α : Type} (copyC : α → Nat → α × Nat)
    (hmono : ∀ y s, s ≤ (copyC y s).2) (l : List α) (st : Nat) :
    st ≤ (copyList copyC l st).2 := by
  induction l generalizing st with
  | nil => exact le_refl st
  | cons x xs ih =>
    show st ≤ (copyList copyC xs (copyC x st).2).2
    exact le_trans (hmono x st) (ih _)

theorem copyList_map {α β : Type} (copyC : α → Nat → α × Nat) (val : α → β)
    (hval : ∀ x s, val (copyC x s).1 = val x) (l : List α) (st : Nat) :
    ((copyList copyC l st).1).map val = l.map val := by
  induction l generalizing st with
  | nil => rfl
  | cons x xs ih => simp [copyList, hval, ih]

/-- The element-construction function used inside `reserve` is exactly the
copy constructor, because `moveIfNoexceptV` is the identity. -/
theorem reserve_copyFun {α : Type} (copyC : α → Nat → α × Nat) :
    (fun x s => copyC (RvalueUtil.moveIfNoexceptV x) s) = copyC := rfl

/-! ## Claims about the example vector -/

/-- C3. The example vector's move constructor transfers the representation:
the constructed vector has `d_begin`, `d_end` and `d_endBuffer` equal to the
source's former values (in particular its `begin()` is the source's former
`begin()`), and the source is left with all three pointers null — an empty
vector of size 0 and capacity 0 that satisfies the class invariant. -/
theorem vector_move_ctor_transfers (α : Type) (v0 : Vec α) :
    (vecMoveCtor v0).1.dBegin = v0.dBegin ∧
    (vecMoveCtor v0).1.dEnd = v0.dEnd ∧
    (vecMoveCtor v0).1.dEndBuffer = v0.dEndBuffer ∧
    (vecMoveCtor v0).1.begin_ = v0.begin_ ∧
    (vecMoveCtor v0).2.dBegin = 0 ∧
    (vecMoveCtor v0).2.dEnd = 0 ∧
    (vecMoveCtor v0).2.dEndBuffer = 0 ∧
    (vecMoveCtor v0).2.empty = true ∧
    (vecMoveCtor v0).2.size = 0 ∧
    (vecMoveCtor v0).2.capacity = 0 ∧
    Inv (vecMoveCtor v0).2 :=
  ⟨rfl, rfl, rfl, rfl, rfl, rfl, rfl, rfl, rfl, rfl,
   Nat.le_refl 0, Or.inl rfl⟩

/-- C10. Postcondition of the example vector's `reserve`: afterwards the
capacity is at least `n` and at least the old capacity, the size is
unchanged, the sequence of element values is unchanged (each element being
reconstructed from the old one through `moveIfNoexcept`, i.e. copied), and
when the old capacity already suffices the call changes nothing at all. -/
theorem reserve_postcondition {α β : Type} (copyC : α → Nat → α × Nat)
    (val : α → β) (hval : ∀ x s, val (copyC x s).1 = val x)
    (v : Vec α) (n : Int) (st : Nat) :
    n ≤ ((reserve copyC v n st).1.cap : Int) ∧
    v.cap ≤ (reserve copyC v n st).1.cap ∧
    (reserve copyC v n st).1.elems.length = v.elems.length ∧
    (reserve copyC v n st).1.elems.map val = v.elems.map val ∧
    (n ≤ (v.cap : Int) → reserve copyC v n st = (v, st)) := by
  unfold reserve
  by_cases h : (v.cap : Int) < n
  · rw [if_pos h]
    have hn : (0 : Int) ≤ n := le_trans (Int.natCast_nonneg v.cap) (le_of_lt h)
    have htn : ((n.toNat : Nat) : Int) = n := Int.toNat_of_nonneg hn
    refine ⟨?_, ?_, ?_, ?_, ?_⟩
    · simp only [htn, le_refl]
    · have := Int.lt_of_lt_of_le h (le_of_eq htn.symm)
      exact_mod_cast le_of_lt this
    · simpa [reserve_copyFun] using
        copyList_length copyC v.elems (st + 1)
    · simpa [reserve_copyFun] using
        copyList_map copyC val hval v.elems (st + 1)
    · intro hle
      exact absurd (lt_of_lt_of_le h hle) (lt_irrefl _)
  · rw [if_neg h]
    exact ⟨le_of_not_lt h, le_refl _, rfl, rfl, fun _ => rfl⟩

/-- Witness for `reserve_postcondition`: `int` elements, empty vector,
`n = 4`, allocation counter `0`. -/
theorem reserve_postcondition_witness :
    id ((intCopy 7 0).1) = id 7 ∧
    (reserve intCopy (⟨0, [], 0⟩ : Vec Int) 4 0).1.elems.map id =
      (⟨0, [], 0⟩ : Vec Int).elems.map id ∧
    (4 : Int) ≤ ((reserve intCopy (⟨0, [], 0⟩ : Vec Int) 4 0).1.cap : Int) :=
  ⟨rfl,
   (reserve_postcondition intCopy id (fun _ _ => rfl) ⟨0, [], 0⟩ 4 0).2.2.2.1,
   (reserve_postcondition intCopy id (fun _ _ => rfl) ⟨0, [], 0⟩ 4 0).1⟩

/-- C8. Idempotence of `move` on already-movable handles: the C++03
forwarding overload returns its argument unchanged (hence denotes the same
object), and in the C++11 branch `move (move x)` denotes the same object as
`move x`. -/
theorem move_idempotent (a : Addr) (_h : a ≠ 0) :
    (∀ r, Cpp03.RvalueUtil.move a = some r →
      Cpp03.RvalueUtil.moveRvalue r = r ∧
      Cpp03.Rvalue.toRef (Cpp03.RvalueUtil.moveRvalue r) =
        Cpp03.Rvalue.toRef r) ∧
    Cpp11.RvalueUtil.move (Cpp11.RvalueUtil.move a) =
      Cpp11.RvalueUtil.move a := by
  refine ⟨fun r _ => ⟨rfl, rfl⟩, rfl⟩

/-- Witness for `move_idempotent` at the concrete address `3`. -/
theorem move_idempotent_witness :
    (∀ r, Cpp03.RvalueUtil.move 3 = some r →
      Cpp03.RvalueUtil.moveRvalue r = r ∧
      Cpp03.Rvalue.toRef (Cpp03.RvalueUtil.moveRvalue r) =
        Cpp03.Rvalue.toRef r) ∧
    Cpp11.RvalueUtil.move (Cpp11.RvalueUtil.move 3) =
      Cpp11.RvalueUtil.move 3 :=
  move_idempotent 3 (by decide)

/-- Shape of both `push_back` overloads after the conditional growth step:
under the class invariant the vector `w` obtained from the conditional
`reserve` call has the source's size, strictly spare capacity (so the
`assert(d_end != d_endBuffer)` holds) and capacity at least `4`; the
allocation counter does not decrease when the element copy constructor does
not. -/
theorem pushBack_pre {α : Type} (copyC : α → Nat → α × Nat) (v : Vec α)
    (st : Nat) (hInv : Inv v) :
    ∃ w st1,
      (if v.elems.length = v.cap
        then reserve copyC v (growSize v.elems.length) st
        else (v, st)) = (w, st1) ∧
      w.elems.length = v.elems.length ∧
      w.elems.length < w.cap ∧ 4 ≤ w.cap ∧
      ((∀ y s, s ≤ (copyC y s).2) → st ≤ st1) := by
  by_cases hfull : v.elems.length = v.cap
  · rw [if_pos hfull]
    by_cases h0 : v.elems.length = 0
    · have hcap0 : v.cap = 0 := by omega
      have helems : v.elems = [] := List.length_eq_zero.mp h0
      refine ⟨⟨st + 1, [], 4⟩, st + 1, ?_, ?_, ?_, ?_, fun _ => Nat.le_succ st⟩
      · simp [reserve, growSize, h0, hcap0, helems, copyList]
      · simp [h0]
      · show (0 : Nat) < 4; decide
      · show (4 : Nat) ≤ 4; decide
    · have hcap4 : 4 ≤ v.cap := by
        rcases hInv.2 with h | h
        · omega
        · exact h
      have hlen4 : 4 ≤ v.elems.length := by omega
      have hcond : (v.cap : Int) < growSize v.elems.length := by
        have h2 : v.cap < v.elems.length + v.elems.length / 2 := by omega
        simp only [growSize, if_pos h0]
        exact_mod_cast h2
      refine ⟨⟨st + 1, (copyList copyC v.elems (st + 1)).1,
          v.elems.length + v.elems.length / 2⟩,
        (copyList copyC v.elems (st + 1)).2, ?_, ?_, ?_, ?_, ?_⟩
      · have h2 : (v.cap : Int) <
            ((v.elems.length + v.elems.length / 2 : Nat) : Int) := by
          exact_mod_cast (by omega : v.cap < v.elems.length + v.elems.length / 2)
        simp only [reserve, reserve_copyFun, growSize, if_pos h0,
          Int.toNat_natCast, if_pos h2]
      · exact copyList_length copyC v.elems (st + 1)
      · show (copyList copyC v.elems (st + 1)).1.length <
          v.elems.length + v.elems.length / 2
        rw [copyList_length]
        omega
      · show 4 ≤ v.elems.length + v.elems.length / 2
        omega
      · intro hm
        exact le_trans (Nat.le_succ st) (copyList_mono copyC hm v.elems (st + 1))
  · rw [if_neg hfull]
    have hlt : v.elems.length < v.cap := lt_of_le_of_ne hInv.1 hfull
    have hcap4 : 4 ≤ v.cap := by
      rcases hInv.2 with h | h
      · omega
      · exact h
    exact ⟨v, st, rfl, rfl, hlt, hcap4, fun _ => le_refl st⟩

/-- `push_back(const TYPE&)` on an invariant-satisfying vector never trips
its assertion and appends exactly one copy-constructed element at the end. -/
theorem pushBackCopy_eq {α : Type} (copyC : α → Nat → α × Nat) (v : Vec α)
    (x : α) (st : Nat) (hInv : Inv v) :
    ∃ (w : Vec α) (st1 : Nat),
      w.elems.length = v.elems.length ∧
      w.elems.length < w.cap ∧ 4 ≤ w.cap ∧
      ((∀ y s, s ≤ (copyC y s).2) → st ≤ st1) ∧
      pushBackCopy copyC v x st =
        some (⟨w.buf, w.elems ++ [(copyC x st1).1], w.cap⟩, (copyC x st1).2) := by
  obtain ⟨w, st1, heq, hlen, hlt, hcap, hmono⟩ := pushBack_pre copyC v st hInv
  refine ⟨w, st1, hlen, hlt, hcap, hmono, ?_⟩
  unfold pushBackCopy
  rw [heq]
  simp only [if_neg (ne_of_lt hlt)]

/-- `push_back(Rvalue<TYPE>)` on an invariant-satisfying vector never trips
its assertion and appends exactly one move-constructed element at the end,
returning the moved-from source. -/
theorem pushBackMove_eq {α : Type} (copyC : α → Nat → α × Nat)
    (moveC : α → α × α) (v : Vec α) (x : α) (st : Nat) (hInv : Inv v) :
    ∃ (w : Vec α) (st1 : Nat),
      w.elems.length = v.elems.length ∧
      w.elems.length < w.cap ∧ 4 ≤ w.cap ∧
      ((∀ y s, s ≤ (copyC y s).2) → st ≤ st1) ∧
      pushBackMove copyC moveC v x st =
        some (⟨w.buf, w.elems ++ [(moveC x).1], w.cap⟩, (moveC x).2, st1) := by
  obtain ⟨w, st1, heq, hlen, hlt, hcap, hmono⟩ := pushBack_pre copyC v st hInv
  refine ⟨w, st1, hlen, hlt, hcap, hmono, ?_⟩
  unfold pushBackMove
  rw [heq]
  simp only [if_neg (ne_of_lt hlt)]

theorem copyList_intCopy (l : List Int) (s : Nat) :
    copyList intCopy l s = (l, s) := by
  induction l generalizing s with
  | nil => rfl
  | cons x xs ih => simp [copyList, intCopy, ih]

/-- Copying a nonempty inner `vector<int>` allocates a fresh buffer at the
next free address and copies the element values. -/
theorem ivecCopy_nonempty (y : Vec Int) (s : Nat) (h : y.elems ≠ []) :
    ivecCopy y s =
      (⟨s + 1, y.elems,
        if 4 < y.elems.length then y.elems.length else 4⟩, s + 1) := by
  have hne : y.elems.isEmpty = false := by
    simpa [List.isEmpty_iff] using h
  have hN : (0 : Int) <
      ((if 4 < y.elems.length then y.elems.length else 4 : Nat) : Int) := by
    split <;> omega
  unfold ivecCopy vecCopyCtor
  rw [hne]
  simp only [Bool.false_eq_true, if_false, reserve, Vec.cap, Nat.cast_zero,
    if_pos hN, reserve_copyFun, copyList, Int.toNat_natCast, copyList_intCopy]

/-- Copying an empty inner `vector<int>` allocates nothing: the copy keeps
all three pointers null. -/
theorem ivecCopy_of_empty (y : Vec Int) (s : Nat) (h : y.elems = []) :
    ivecCopy y s = (⟨0, [], 0⟩, s) := by
  unfold ivecCopy vecCopyCtor
  simp [h]

/-- The inner-vector copy constructor never decreases the allocation
counter. -/
theorem ivecCopy_mono (y : Vec Int) (s : Nat) : s ≤ (ivecCopy y s).2 := by
  by_cases h : y.elems = []
  · rw [ivecCopy_of_empty y s h]
  · rw [ivecCopy_nonempty y s h]
    exact Nat.le_succ s

/-- C4 (amended). `push_back` on the example `vector<vector<int> >`
distinguishes copy from move: for every outer vector `v` satisfying the
class invariant (without it both overloads can fail their `assert` and
append nothing, see the counterexample), element `e` and allocation counter
`st` bounding `e`'s buffer, the `const TYPE&` overload appends a copy whose
element values equal `e`'s (`e` itself being untouched) and whose buffer,
when `e` is nonempty, is distinct from `e`'s, while the `Rvalue<TYPE>`
overload appends an element whose buffer is exactly `e`'s former one and
leaves `e` with null pointers; in both cases the size grows by exactly
one. -/
theorem push_back_copy_vs_move (v : Vec (Vec Int)) (e : Vec Int) (st : Nat)
    (hInv : Inv v) (hst : e.buf ≤ st) :
    (∃ v1 st1 y, pushBackCopy ivecCopy v e st = some (v1, st1) ∧
      v1.elems.length = v.elems.length + 1 ∧
      v1.elems.getLast? = some y ∧ y.elems = e.elems ∧
      (e.elems ≠ [] → y.buf ≠ e.buf)) ∧
    (∃ v2 e2 st2 y,
      pushBackMove ivecCopy vecMoveCtor v e st = some (v2, e2, st2) ∧
      v2.elems.length = v.elems.length + 1 ∧
      v2.elems.getLast? = some y ∧ y.buf = e.buf ∧ y.elems = e.elems ∧
      e2.buf = 0 ∧ e2.elems = []) := by
  constructor
  · obtain ⟨w, st1, hlen, hlt, hcap, hmono, heq⟩ :=
      pushBackCopy_eq ivecCopy v e st hInv
    have hst1 : st ≤ st1 := hmono (fun y s => ivecCopy_mono y s)
    refine ⟨_, _, (ivecCopy e st1).1, heq, ?_, ?_, ?_, ?_⟩
    · simp [hlen]
    · simp
    · by_cases he : e.elems = []
      · rw [ivecCopy_of_empty e st1 he, he]
      · rw [ivecCopy_nonempty e st1 he]
    · intro hne
      rw [ivecCopy_nonempty e st1 hne]
      show st1 + 1 ≠ e.buf
      omega
  · obtain ⟨w, st1, hlen, hlt, hcap, hmono, heq⟩ :=
      pushBackMove_eq ivecCopy vecMoveCtor v e st hInv
    exact ⟨_, _, _, (vecMoveCtor e).1, heq, by simp [hlen], by simp,
      rfl, rfl, rfl, rfl⟩

/-- Witness for `push_back_copy_vs_move` at a concrete outer vector, element
and allocation counter. -/
theorem push_back_copy_vs_move_witness :
    Inv (⟨0, [], 0⟩ : Vec (Vec Int)) ∧
    (⟨1, [7], 4⟩ : Vec Int).buf ≤ 1 ∧
    ((∃ v1 st1 y,
      pushBackCopy ivecCopy (⟨0, [], 0⟩ : Vec (Vec Int)) ⟨1, [7], 4⟩ 1 =
        some (v1, st1) ∧
      v1.elems.length = (⟨0, [], 0⟩ : Vec (Vec Int)).elems.length + 1 ∧
      v1.elems.getLast? = some y ∧
      y.elems = (⟨1, [7], 4⟩ : Vec Int).elems ∧
      ((⟨1, [7], 4⟩ : Vec Int).elems ≠ [] →
        y.buf ≠ (⟨1, [7], 4⟩ : Vec Int).buf)) ∧
    (∃ v2 e2 st2 y,
      pushBackMove ivecCopy vecMoveCtor (⟨0, [], 0⟩ : Vec (Vec Int))
        ⟨1, [7], 4⟩ 1 = some (v2, e2, st2) ∧
      v2.elems.length = (⟨0, [], 0⟩ : Vec (Vec Int)).elems.length + 1 ∧
      v2.elems.getLast? = some y ∧ y.buf = (⟨1, [7], 4⟩ : Vec Int).buf ∧
      y.elems = (⟨1, [7], 4⟩ : Vec Int).elems ∧
      e2.buf = 0 ∧ e2.elems = [])) :=
  ⟨by decide, by decide,
   push_back_copy_vs_move ⟨0, [], 0⟩ ⟨1, [7], 4⟩ 1 (by decide) (by decide)⟩

/-- Counterexample to C4 as stated, at two explicit inputs. First, pushing a
copy of an *empty* element `e = ⟨0, [], 0⟩` appends an element whose buffer
is `0`, exactly `e`'s (null) buffer — not distinct. Second, on an outer
vector that is full with capacity `1` (a state a client reaches via
`reserve(1)` plus one `push_back`), the growth step
`reserve(int(1.5 * 1)) = reserve(1)` is a no-op, so both `push_back`
overloads fail their `assert` and append nothing — the size does not grow by
one. -/
theorem push_back_copy_vs_move_counterexample :
    (pushBackCopy ivecCopy (⟨0, [], 0⟩ : Vec (Vec Int))
      (⟨0, [], 0⟩ : Vec Int) 0 = some (⟨1, [⟨0, [], 0⟩], 4⟩, 1) ∧
    (⟨1, [(⟨0, [], 0⟩ : Vec Int)], 4⟩ : Vec (Vec Int)).elems.getLast? =
      some ⟨0, [], 0⟩ ∧
    (⟨0, [], 0⟩ : Vec Int).buf = (⟨0, [], 0⟩ : Vec Int).buf) ∧
    (pushBackCopy ivecCopy (⟨1, [⟨0, [], 0⟩], 1⟩ : Vec (Vec Int))
      (⟨0, [], 0⟩ : Vec Int) 1 = none ∧
    pushBackMove ivecCopy vecMoveCtor
      (⟨1, [⟨0, [], 0⟩], 1⟩ : Vec (Vec Int)) (⟨0, [], 0⟩ : Vec Int) 1 =
      none) := by
  exact ⟨⟨by decide, by decide, rfl⟩, by decide, by decide⟩

/-- Shape of the copy constructor on a nonempty source: a fresh buffer at the
next free address, copy-constructed elements, capacity `max(4, size)`. -/
theorem vecCopyCtor_nonempty {α : Type} (copyC : α → Nat → α × Nat)
    (other : Vec α) (st : Nat) (h : other.elems ≠ []) :
    vecCopyCtor copyC other st =
      (⟨st + 1, (copyList copyC other.elems (st + 1)).1,
        if 4 < other.elems.length then other.elems.length else 4⟩,
       (copyList copyC other.elems (st + 1)).2) := by
  have hne : other.elems.isEmpty = false := by
    simpa [List.isEmpty_iff] using h
  have hN : (0 : Int) <
      ((if 4 < other.elems.length then other.elems.length else 4 : Nat) :
        Int) := by
    split <;> omega
  unfold vecCopyCtor
  rw [hne]
  simp only [Bool.false_eq_true, if_false, reserve, Vec.cap, Nat.cast_zero,
    if_pos hN, reserve_copyFun, copyList, Int.toNat_natCast]

/-- The copy constructor establishes the class invariant unconditionally. -/
theorem inv_vecCopyCtor {α : Type} (copyC : α → Nat → α × Nat)
    (other : Vec α) (st : Nat) : Inv (vecCopyCtor copyC other st).1 := by
  by_cases h : other.elems = []
  · have hne : other.elems.isEmpty = true := by simp [h]
    unfold vecCopyCtor
    rw [hne, if_pos rfl]
    exact ⟨Nat.le_refl 0, Or.inl rfl⟩
  · rw [vecCopyCtor_nonempty copyC other st h]
    constructor
    · show (copyList copyC other.elems (st + 1)).1.length ≤
        (if 4 < other.elems.length then other.elems.length else 4 : Nat)
      rw [copyList_length]
      split <;> omega
    · right
      show 4 ≤ (if 4 < other.elems.length then other.elems.length else 4 : Nat)
      split <;> omega

/-- A restricted `reserve` call (no-op or argument at least `4`) preserves
the class invariant. -/
theorem inv_reserve {α : Type} (copyC : α → Nat → α × Nat) (v : Vec α)
    (n : Int) (st : Nat) (hInv : Inv v)
    (hn : n ≤ (v.cap : Int) ∨ 4 ≤ n) : Inv (reserve copyC v n st).1 := by
  unfold reserve
  by_cases h : (v.cap : Int) < n
  · rw [if_pos h]
    have h4 : (4 : Int) ≤ n := by
      rcases hn with hn | hn
      · omega
      · exact hn
    have hlen : v.elems.length ≤ v.cap := hInv.1
    constructor
    · show (copyList _ v.elems (st + 1)).1.length ≤ n.toNat
      rw [copyList_length]
      omega
    · right
      show 4 ≤ n.toNat
      omega
  · rw [if_neg h]
    exact hInv

/-- `push_back(const TYPE&)` preserves the class invariant. -/
theorem inv_pushBackCopy {α : Type} (copyC : α → Nat → α × Nat) (v : Vec α)
    (x : α) (st : Nat) (v' : Vec α) (st' : Nat) (hInv : Inv v)
    (heq : pushBackCopy copyC v x st = some (v', st')) : Inv v' := by
  obtain ⟨w, st1, hlen, hlt, hcap, _, heq2⟩ := pushBackCopy_eq copyC v x st hInv
  rw [heq2] at heq
  simp only [Option.some.injEq, Prod.mk.injEq] at heq
  obtain ⟨h1, -⟩ := heq
  rw [← h1]
  refine ⟨?_, Or.inr hcap⟩
  show (w.elems ++ [(copyC x st1).1]).length ≤ w.cap
  rw [List.length_append, List.length_singleton]
  omega

/-- `push_back(Rvalue<TYPE>)` preserves the class invariant. -/
theorem inv_pushBackMove {α : Type} (copyC : α → Nat → α × Nat)
    (moveC : α → α × α) (v : Vec α) (x : α) (st : Nat) (v' : Vec α) (e' : α)
    (st' : Nat) (hInv : Inv v)
    (heq : pushBackMove copyC moveC v x st = some (v', e', st')) : Inv v' := by
  obtain ⟨w, st1, hlen, hlt, hcap, _, heq2⟩ :=
    pushBackMove_eq copyC moveC v x st hInv
  rw [heq2] at heq
  simp only [Option.some.injEq, Prod.mk.injEq] at heq
  obtain ⟨h1, -⟩ := heq
  rw [← h1]
  refine ⟨?_, Or.inr hcap⟩
  show (w.elems ++ [(moveC x).1]).length ≤ w.cap
  rw [List.length_append, List.length_singleton]
  omega

/-- C9 (amended). Every vector reachable from the default constructor via
both `push_back` overloads, copy construction, move construction, assignment,
`swap`, and `reserve` restricted to arguments that are no-ops or at least
`4`, satisfies the class invariant `0 ≤ size() ≤ capacity()` with
`capacity()` either `0` or at least `4`; and under this invariant the
`assert(this->d_end != this->d_endBuffer)` executed by both `push_back`
overloads after the conditional `reserve` call (including the growth step
`reserve(int(1.5 * size()))`) never fails. -/
theorem vector_reachable_invariant {α : Type} (copyC : α → Nat → α × Nat)
    (moveC : α → α × α) (v : Vec α) (h : Reachable copyC moveC v) :
    Inv v ∧
    ∀ (x : α) (st : Nat), (pushBackCopy copyC v x st).isSome ∧
      (pushBackMove copyC moveC v x st).isSome := by
  have hInv : Inv v := by
    induction h with
    | dflt => exact ⟨Nat.le_refl 0, Or.inl rfl⟩
    | push_copy v x st v' st' h heq ih =>
      exact inv_pushBackCopy copyC v x st v' st' ih heq
    | push_move v x st v' e' st' h heq ih =>
      exact inv_pushBackMove copyC moveC v x st v' e' st' ih heq
    | reserve_call v n st h hn ih => exact inv_reserve copyC v n st ih hn
    | copy_ctor v st h ih => exact inv_vecCopyCtor copyC v st
    | move_ctor_new v h ih => exact ih
    | move_ctor_src v h ih => exact ⟨Nat.le_refl 0, Or.inl rfl⟩
    | assign_op v w h hw ihv ihw => exact ihw
    | swap_fst v w h hw ihv ihw => exact ihw
    | swap_snd v w h hw ihv ihw => exact ihv
  refine ⟨hInv, fun x st => ⟨?_, ?_⟩⟩
  · obtain ⟨w, st1, -, -, -, -, heq⟩ := pushBackCopy_eq copyC v x st hInv
    rw [heq]
    rfl
  · obtain ⟨w, st1, -, -, -, -, heq⟩ := pushBackMove_eq copyC moveC v x st hInv
    rw [heq]
    rfl

/-- Witness for `vector_reachable_invariant`: the default `vector<int>` is
reachable, satisfies the invariant, and both `push_back`s succeed on it. -/
theorem vector_reachable_invariant_witness :
    Inv (⟨0, [], 0⟩ : Vec Int) ∧
    ((pushBackCopy intCopy (⟨0, [], 0⟩ : Vec Int) 7 0).isSome ∧
      (pushBackMove intCopy intMove (⟨0, [], 0⟩ : Vec Int) 7 0).isSome) :=
  ⟨(vector_reachable_invariant intCopy intMove ⟨0, [], 0⟩ Reachable.dflt).1,
   (vector_reachable_invariant intCopy intMove ⟨0, [], 0⟩ Reachable.dflt).2
     7 0⟩

/-- Counterexample to C9 as stated: a user-level `reserve(1)` on a default
`vector<int>` is a reachable transition of the claim's operation list but
produces capacity `1` — neither `0` nor at least `4` — and after one
successful `push_back` the next `push_back` makes its `assert` fail (the
growth step `reserve(int(1.5 * 1)) = reserve(1)` is a no-op on a full
vector of capacity `1`). -/
theorem vector_reachable_invariant_counterexample :
    reserve intCopy (⟨0, [], 0⟩ : Vec Int) 1 0 = (⟨1, [], 1⟩, 1) ∧
    ¬ ((⟨1, [], 1⟩ : Vec Int).cap = 0 ∨ 4 ≤ (⟨1, [], 1⟩ : Vec Int).cap) ∧
    pushBackCopy intCopy (⟨1, [], 1⟩ : Vec Int) 7 1 =
      some (⟨1, [7], 1⟩, 1) ∧
    pushBackCopy intCopy (⟨1, [7], 1⟩ : Vec Int) 8 1 = none := by
  refine ⟨by decide, by decide, by decide, by decide⟩

end BslmfRvalue
